import Mathlib

set_option maxHeartbeats 1000000

namespace TowerBuffer

/-- PollReady models one result of the wrapped service's readiness check
(`Service::poll_ready` in worker.rs): pending, ready, or a readiness error.
Errors are identified by a natural number. -/
inductive PollReady where
  | pending
  | ok
  | err (e : Nat)
deriving DecidableEq, Repr

/-- BoxErr models the crate BoxError values this module produces: a cloned
ServiceError wrapping the original readiness error, or the generic Closed
error (buffer/error.rs). -/
inductive BoxErr where
  | svc (e : Nat)
  | closed
deriving DecidableEq, Repr

/-- Message models buffer message.rs Message: a request payload together
with its oneshot reply sender, abstracted to whether `tx.is_closed()`
already holds (the caller abandoned the reply destination). -/
structure Message where
  request : Nat
  txClosed : Bool
deriving DecidableEq, Repr

/-- RxState models the mpsc receive side owned by the worker: the buffered
messages still queued, plus whether `close()` has been called on it. A
closed receiver still delivers its buffered messages before reporting None. -/
structure RxState where
  queue : List Message
  closed : Bool
deriving DecidableEq, Repr

/-- Worker mirrors the Worker struct of worker.rs: the receive side `rx`,
the `finish` flag, the local sticky `failed` error, and the contents of the
shared `handle.inner` cell (`Arc<Mutex<Option<ServiceError>>>`), modelled
inline since the worker and all Handle clones share that one cell.
`readyIdx` counts the calls made so far to the service's readiness check,
indexing the readiness oracle supplied to `poll`. -/
structure Worker where
  rx : RxState
  finish : Bool
  failed : Option Nat
  handleInner : Option Nat
  readyIdx : Nat
deriving DecidableEq, Repr

/-- Event records one observable action of the worker loop, in execution
order: a readiness poll with its result, a skipped (cancelled) message, a
`Service::call` dispatch, sending the response future, or sending a clone
of the recorded failure. -/
inductive Event where
  | polledReady (r : PollReady)
  | skipped (req : Nat)
  | called (req : Nat)
  | sentOk (req : Nat)
  | sentErr (req : Nat) (e : Nat)
deriving DecidableEq, Repr

/-- FailAction records the primitive steps of `Worker::failed` in the order
the source performs them: the aborted check-and-set, recording the error in
the shared cell, closing the receiver, and retaining the sticky local copy. -/
inductive FailAction where
  | checkAbort
  | setShared (e : Nat)
  | closeRx
  | setLocal (e : Nat)
deriving DecidableEq, Repr

/-- Worker.failedFn embeds `Worker::failed` (worker.rs lines 89-120): under
the handle lock, abort if an error is already recorded; otherwise first
expose the error through the shared cell, then close the receiver, then
retain the sticky local copy. The returned list records the steps taken in
that order. -/
def Worker.failedFn (w : Worker) (error : Nat) : Worker × List FailAction :=
  if w.handleInner.isSome then
    (w, [FailAction.checkAbort])
  else
    ({ w with
        handleInner := some error,
        rx := { w.rx with closed := true },
        failed := some error },
     [FailAction.setShared error, FailAction.closeRx, FailAction.setLocal error])

/-- findMsg embeds the while-let loop of `Worker::poll_next_msg`: pop
queued messages, skipping any whose reply sender is closed. The first
component is `none` for Poll::Pending (queue empty, senders still alive),
`some none` for Ready(None) (queue closed and drained), and `some (some m)`
for the first message whose reply destination is still wanted. The second
component is the remaining queue; the third lists the skip events. -/
def findMsg (closed : Bool) : List Message → Option (Option Message) × List Message × List Event
  | [] => (if closed then some none else none, [], [])
  | m :: rest =>
    if !m.txClosed then (some (some m), rest, [])
    else
      let r := findMsg closed rest
      (r.1, r.2.1, Event.skipped m.request :: r.2.2)

/-- Worker.pollNextMsg embeds `Worker::poll_next_msg` (worker.rs lines
69-87): Ready(None) immediately when finishing, otherwise scan the
receiver for the next non-cancelled message. -/
def Worker.pollNextMsg (w : Worker) : Option (Option Message) × Worker × List Event :=
  if w.finish then (some none, w, [])
  else
    let r := findMsg w.rx.closed w.rx.queue
    (r.1, { w with rx := { w.rx with queue := r.2.1 } }, r.2.2)

/-- StepOut is the outcome of one iteration of the poll loop: suspend
(return Poll::Pending), finishNow (set `finish` and return Poll::Ready),
or continueLoop (run the next iteration). Each carries the worker state
and the events of the iteration. -/
inductive StepOut where
  | suspend (w : Worker) (t : List Event)
  | finishNow (w : Worker) (t : List Event)
  | continueLoop (w : Worker) (t : List Event)
deriving Repr

/-- msgPhase embeds the message half of one loop iteration (worker.rs lines
152-176): poll for the next message; Pending propagates; None sets `finish`
and completes; a dequeued message is answered with a clone of the recorded
failure if one is set, and otherwise dispatched to the service, with the
response future sent back to the caller. -/
def msgPhase (w : Worker) (t : List Event) : StepOut :=
  let p := w.pollNextMsg
  match p.1 with
  | none => StepOut.suspend p.2.1 (t ++ p.2.2)
  | some none => StepOut.finishNow { p.2.1 with finish := true } (t ++ p.2.2)
  | some (some msg) =>
    match p.2.1.failed with
    | some e => StepOut.continueLoop p.2.1 (t ++ p.2.2 ++ [Event.sentErr msg.request e])
    | none =>
      StepOut.continueLoop p.2.1
        (t ++ p.2.2 ++ [Event.called msg.request, Event.sentOk msg.request])

/-- bump advances the worker's readiness-oracle cursor by one, recording
that one more `poll_ready` call has been made. -/
def bump (w : Worker) : Worker :=
  { w with readyIdx := w.readyIdx + 1 }

/-- loopStep embeds one full iteration of the loop in `Future::poll` for
Worker (worker.rs lines 135-176): when no failure is recorded, poll the
service's readiness first — Pending suspends, an error runs the failure
transition `Worker::failed`, Ok proceeds — then run the message phase.
`rdy` is the oracle giving the result of each successive readiness check. -/
def loopStep (rdy : Nat → PollReady) (w : Worker) : StepOut :=
  if w.failed.isNone then
    match rdy w.readyIdx with
    | PollReady.pending =>
      StepOut.suspend (bump w) [Event.polledReady PollReady.pending]
    | PollReady.err e =>
      msgPhase ((Worker.failedFn (bump w) e).1) [Event.polledReady (PollReady.err e)]
    | PollReady.ok =>
      msgPhase (bump w) [Event.polledReady PollReady.ok]
  else msgPhase w []

/-- PollRes is the outcome of one call to `Future::poll` on the worker:
Poll::Pending or Poll::Ready(()). -/
inductive PollRes where
  | pending
  | ready
deriving DecidableEq, Repr

/-- pollLoopF interprets the loop of `Future::poll` (worker.rs lines
135-177), iterating loopStep. The fuel bounds the number of iterations;
every iteration that continues consumes at least one queued message, so
any fuel exceeding the queue length is enough (pollLoopF_fuel). -/
def pollLoopF : Nat → (Nat → PollReady) → Worker → PollRes × Worker × List Event
  | 0, _, w => (PollRes.pending, w, [])
  | fuel + 1, rdy, w =>
    match loopStep rdy w with
    | StepOut.suspend w1 t => (PollRes.pending, w1, t)
    | StepOut.finishNow w1 t => (PollRes.ready, w1, t)
    | StepOut.continueLoop w1 t =>
      let r := pollLoopF fuel rdy w1
      (r.1, r.2.1, t ++ r.2.2)

/-- Worker.poll embeds `Future::poll` for Worker (worker.rs lines 130-178):
return Ready immediately when `finish` is set, otherwise run the loop with
enough fuel to drain the whole current queue. -/
def Worker.poll (rdy : Nat → PollReady) (w : Worker) : PollRes × Worker × List Event :=
  if w.finish then (PollRes.ready, w, [])
  else pollLoopF (w.rx.queue.length + 1) rdy w

/-- newWorker embeds `Worker::new`: a fresh worker whose shared failure
cell is empty, paired with the given receiver contents. -/
def newWorker (queue : List Message) (closed : Bool) : Worker :=
  { rx := { queue := queue, closed := closed },
    finish := false,
    failed := none,
    handleInner := none,
    readyIdx := 0 }

/-- getErrorOnClosed embeds `Handle::get_error_on_closed` (worker.rs lines
182-189): a clone of the recorded ServiceError when the shared cell holds
one, otherwise the generic Closed error. -/
def getErrorOnClosed (inner : Option Nat) : BoxErr :=
  match inner with
  | some e => BoxErr.svc e
  | none => BoxErr.closed

/-- alwaysOk is the readiness oracle of a service that is always ready. -/
def alwaysOk : Nat → PollReady := fun _ => PollReady.ok

/-- drainTrace describes the worker's answers while a failure `e` is
recorded: each queued message is skipped when its reply destination was
abandoned and otherwise answered with a clone of the recorded failure. -/
def drainTrace (e : Nat) (q : List Message) : List Event :=
  q.map fun m => if m.txClosed then Event.skipped m.request else Event.sentErr m.request e

/-- answered holds when the trace records either a dispatch of message `m`
to the service or a failure reply sent to `m`. -/
def answered (t : List Event) (m : Message) : Bool :=
  t.any fun ev =>
    match ev with
    | Event.called r => r == m.request
    | Event.sentErr r _ => r == m.request
    | _ => false

/-- backpressureOk checks the backpressure discipline along a trace: every
dispatch must be preceded by a readiness poll that reported ready, with no
other dispatch in between (readiness is consumed by a dispatch, never
cached). The first argument is the last readiness report, if any. -/
def backpressureOk : Option PollReady → List Event → Bool
  | _, [] => true
  | _, Event.polledReady r :: t => backpressureOk (some r) t
  | last, Event.called _ :: t => decide (last = some PollReady.ok) && backpressureOk none t
  | last, Event.skipped _ :: t => backpressureOk last t
  | last, Event.sentOk _ :: t => backpressureOk last t
  | last, Event.sentErr _ _ :: t => backpressureOk last t

/-- calledReqs lists the requests passed to `Service::call`, in dispatch
order. -/
def calledReqs (t : List Event) : List Nat :=
  t.filterMap fun ev =>
    match ev with
    | Event.called r => some r
    | _ => none

/-- findMsg_none characterises a Pending scan: the receiver was still open,
every queued message was cancelled, and all were skipped. -/
theorem findMsg_none {c : Bool} {q : List Message} (h : (findMsg c q).1 = none) :
    c = false ∧ (findMsg c q).2.1 = [] ∧
      (findMsg c q).2.2 = q.map (fun m => Event.skipped m.request) ∧
      ∀ m ∈ q, m.txClosed = true := by
  induction q with
  | nil =>
    cases c with
    | false => exact ⟨rfl, rfl, by simp [findMsg], by simp⟩
    | true => simp [findMsg] at h
  | cons m rest ih =>
    by_cases hm : m.txClosed
    · simp only [findMsg, hm, Bool.not_true, Bool.false_eq_true, if_false] at h ⊢
      obtain ⟨hc, hq, ht, hall⟩ := ih h
      refine ⟨hc, hq, by simp [ht], ?_⟩
      intro x hx
      rcases List.mem_cons.mp hx with hx | hx
      · simpa [hx] using hm
      · exact hall x hx
    · simp [findMsg, hm] at h

/-- findMsg_some_none characterises a Ready(None) scan: the receiver was
closed, every queued message was cancelled, and all were skipped. -/
theorem findMsg_some_none {c : Bool} {q : List Message}
    (h : (findMsg c q).1 = some none) :
    c = true ∧ (findMsg c q).2.1 = [] ∧
      (findMsg c q).2.2 = q.map (fun m => Event.skipped m.request) ∧
      ∀ m ∈ q, m.txClosed = true := by
  induction q with
  | nil =>
    cases c with
    | false => simp [findMsg] at h
    | true => exact ⟨rfl, rfl, by simp [findMsg], by simp⟩
  | cons m rest ih =>
    by_cases hm : m.txClosed
    · simp only [findMsg, hm, Bool.not_true, Bool.false_eq_true, if_false] at h ⊢
      obtain ⟨hc, hq, ht, hall⟩ := ih h
      refine ⟨hc, hq, by simp [ht], ?_⟩
      intro x hx
      rcases List.mem_cons.mp hx with hx | hx
      · simpa [hx] using hm
      · exact hall x hx
    · simp [findMsg, hm] at h

/-- findMsg_some_some characterises a successful dequeue: the queue splits
into a cancelled prefix (all skipped, in order), the dequeued message whose
reply destination is still wanted, and the untouched remainder. -/
theorem findMsg_some_some {c : Bool} {q : List Message} {m : Message}
    (h : (findMsg c q).1 = some (some m)) :
    ∃ pre, q = pre ++ m :: (findMsg c q).2.1 ∧
      (∀ x ∈ pre, x.txClosed = true) ∧ m.txClosed = false ∧
      (findMsg c q).2.2 = pre.map (fun x => Event.skipped x.request) := by
  induction q with
  | nil =>
    cases c with
    | false => simp [findMsg] at h
    | true => simp [findMsg] at h
  | cons a rest ih =>
    by_cases hm : a.txClosed
    · simp only [findMsg, hm, Bool.not_true, Bool.false_eq_true, if_false] at h ⊢
      obtain ⟨pre, hsplit, hpre, hm2, ht⟩ := ih h
      refine ⟨a :: pre, ?_, ?_, hm2, by simp [ht]⟩
      · conv_lhs => rw [hsplit]
        simp
      · intro x hx
        rcases List.mem_cons.mp hx with hx | hx
        · simpa [hx] using hm
        · exact hpre x hx
    · simp only [findMsg, hm, Bool.not_false, if_true] at h ⊢
      have ha : m = a := by simpa using h.symm
      subst ha
      exact ⟨[], by simp, by simp, by simpa using hm, by simp⟩

/-- findMsg_some_some_length is the termination measure of the loop: a
successful dequeue strictly shrinks the queue. -/
theorem findMsg_some_some_length {c : Bool} {q : List Message} {m : Message}
    (h : (findMsg c q).1 = some (some m)) :
    (findMsg c q).2.1.length < q.length := by
  obtain ⟨pre, hsplit, -, -, -⟩ := findMsg_some_some h
  have hlen := congrArg List.length hsplit
  simp at hlen
  omega

/-- msgPhase_inv enumerates the outcomes of the message phase: the finish
shortcut, suspension on an open drained queue, completion on a closed
drained queue, a dequeue answered with the recorded failure, and a dequeue
dispatched to the service. -/
theorem msgPhase_inv (w : Worker) (t : List Event) :
    (w.finish = true ∧ msgPhase w t = StepOut.finishNow { w with finish := true } t) ∨
    (w.finish = false ∧ w.rx.closed = false ∧ (∀ m ∈ w.rx.queue, m.txClosed = true) ∧
      msgPhase w t = StepOut.suspend { w with rx := { w.rx with queue := [] } }
        (t ++ w.rx.queue.map (fun m => Event.skipped m.request))) ∨
    (w.finish = false ∧ w.rx.closed = true ∧ (∀ m ∈ w.rx.queue, m.txClosed = true) ∧
      msgPhase w t = StepOut.finishNow
        { w with rx := { w.rx with queue := [] }, finish := true }
        (t ++ w.rx.queue.map (fun m => Event.skipped m.request))) ∨
    (∃ pre m rest e, w.finish = false ∧ w.failed = some e ∧
      w.rx.queue = pre ++ m :: rest ∧ (∀ x ∈ pre, x.txClosed = true) ∧
      m.txClosed = false ∧
      msgPhase w t = StepOut.continueLoop { w with rx := { w.rx with queue := rest } }
        (t ++ pre.map (fun x => Event.skipped x.request) ++ [Event.sentErr m.request e])) ∨
    (∃ pre m rest, w.finish = false ∧ w.failed = none ∧
      w.rx.queue = pre ++ m :: rest ∧ (∀ x ∈ pre, x.txClosed = true) ∧
      m.txClosed = false ∧
      msgPhase w t = StepOut.continueLoop { w with rx := { w.rx with queue := rest } }
        (t ++ pre.map (fun x => Event.skipped x.request) ++
          [Event.called m.request, Event.sentOk m.request])) := by
  by_cases hf : w.finish = true
  · left
    exact ⟨hf, by simp [msgPhase, Worker.pollNextMsg, hf]⟩
  · have hf' : w.finish = false := by simpa using hf
    rcases h1 : (findMsg w.rx.closed w.rx.queue).1 with _ | om
    · obtain ⟨hc, hq, ht, hall⟩ := findMsg_none h1
      right; left
      refine ⟨hf', hc, hall, ?_⟩
      simp [msgPhase, Worker.pollNextMsg, hf', h1, hq, ht]
    · rcases om with _ | m
      · obtain ⟨hc, hq, ht, hall⟩ := findMsg_some_none h1
        right; right; left
        refine ⟨hf', hc, hall, ?_⟩
        simp [msgPhase, Worker.pollNextMsg, hf', h1, hq, ht]
      · obtain ⟨pre, hsplit, hpre, hmc, ht⟩ := findMsg_some_some h1
        rcases h2 : w.failed with _ | e
        · right; right; right; right
          refine ⟨pre, m, (findMsg w.rx.closed w.rx.queue).2.1, hf', rfl, hsplit, hpre, hmc, ?_⟩
          simp [msgPhase, Worker.pollNextMsg, hf', h1, h2, ht]
        · right; right; right; left
          refine ⟨pre, m, (findMsg w.rx.closed w.rx.queue).2.1, e, hf', rfl, hsplit, hpre, hmc, ?_⟩
          simp [msgPhase, Worker.pollNextMsg, hf', h1, h2, ht]

/-- loopStep_inv enumerates the readiness phase of one loop iteration. -/
theorem loopStep_inv (rdy : Nat → PollReady) (w : Worker) :
    (w.failed = none ∧ rdy w.readyIdx = PollReady.pending ∧
      loopStep rdy w = StepOut.suspend (bump w) [Event.polledReady PollReady.pending]) ∨
    (∃ e, w.failed = none ∧ rdy w.readyIdx = PollReady.err e ∧
      loopStep rdy w =
        msgPhase ((Worker.failedFn (bump w) e).1) [Event.polledReady (PollReady.err e)]) ∨
    (w.failed = none ∧ rdy w.readyIdx = PollReady.ok ∧
      loopStep rdy w = msgPhase (bump w) [Event.polledReady PollReady.ok]) ∨
    (∃ e, w.failed = some e ∧ loopStep rdy w = msgPhase w []) := by
  rcases hfl : w.failed with _ | e
  · rcases hr : rdy w.readyIdx with _ | _ | e
    · exact Or.inl ⟨rfl, rfl, by simp [loopStep, hfl, hr]⟩
    · right; right; left
      exact ⟨rfl, rfl, by simp [loopStep, hfl, hr]⟩
    · right; left
      exact ⟨e, rfl, rfl, by simp [loopStep, hfl, hr]⟩
  · right; right; right
    exact ⟨e, rfl, by simp [loopStep, hfl]⟩

/-- answered_append distributes the answered check over trace
concatenation. -/
theorem answered_append {t1 t2 : List Event} {m : Message} :
    answered (t1 ++ t2) m = (answered t1 m || answered t2 m) := by
  simp [answered]

/-- answered_skips records that skip events answer nothing. -/
theorem answered_skips {l : List Message} {m : Message} :
    answered (l.map (fun x => Event.skipped x.request)) m = false := by
  induction l with
  | nil => rfl
  | cons a l ih => simp [answered]

/-- bp_skips records that skip events do not affect the backpressure
discipline. -/
theorem bp_skips (l : List Message) (st : Option PollReady) (t : List Event) :
    backpressureOk st (l.map (fun m => Event.skipped m.request) ++ t) =
      backpressureOk st t := by
  induction l generalizing st with
  | nil => rfl
  | cons a l ih => simpa [backpressureOk] using ih st

/-- calledReqs_append distributes dispatched requests over trace
concatenation. -/
theorem calledReqs_append (t1 t2 : List Event) :
    calledReqs (t1 ++ t2) = calledReqs t1 ++ calledReqs t2 := by
  simp [calledReqs]

/-- calledReqs_skips records that skip events dispatch nothing. -/
theorem calledReqs_skips (l : List Message) :
    calledReqs (l.map (fun m => Event.skipped m.request)) = [] := by
  induction l with
  | nil => rfl
  | cons a l ih => simp [calledReqs]

/-- failedFn_queue: the failure transition never touches the buffered
messages, only the closed flag of the receiver. -/
theorem failedFn_queue (w : Worker) (e : Nat) :
    ((w.failedFn e).1).rx.queue = w.rx.queue := by
  unfold Worker.failedFn
  split <;> rfl

/-- failedFn_finish: the failure transition leaves the finish flag alone. -/
theorem failedFn_finish (w : Worker) (e : Nat) :
    ((w.failedFn e).1).finish = w.finish := by
  unfold Worker.failedFn
  split <;> rfl

/-- runMsg names the tail of one poll-loop iteration: interpret the message
phase, recursing into the loop when the iteration continues. -/
def runMsg (fuel : Nat) (rdy : Nat → PollReady) (w : Worker) (t0 : List Event) :
    PollRes × Worker × List Event :=
  match msgPhase w t0 with
  | StepOut.suspend w1 t => (PollRes.pending, w1, t)
  | StepOut.finishNow w1 t => (PollRes.ready, w1, t)
  | StepOut.continueLoop w1 t =>
    let r := pollLoopF fuel rdy w1
    (r.1, r.2.1, t ++ r.2.2)

/-- pollLoopF_succ_msg rewrites one unfolding of the loop through runMsg
when the readiness phase reached the message phase. -/
theorem pollLoopF_succ_msg (f : Nat) (rdy : Nat → PollReady) (w w' : Worker)
    (t0 : List Event) (h : loopStep rdy w = msgPhase w' t0) :
    pollLoopF (f + 1) rdy w = runMsg f rdy w' t0 := by
  simp only [pollLoopF, h, runMsg]

/-- MainProp bundles per-poll conservation facts: the queue only loses
messages the trace accounts for, dispatched requests follow queue order,
and a Ready result means the worker finished (with a drained queue when it
was not already finishing). -/
def MainProp (fuel : Nat) (rdy : Nat → PollReady) (w : Worker) : Prop :=
  (∃ pre, w.rx.queue = pre ++ (pollLoopF fuel rdy w).2.1.rx.queue ∧
      ∀ m ∈ pre, m.txClosed = false → answered (pollLoopF fuel rdy w).2.2 m = true) ∧
  List.Sublist (calledReqs (pollLoopF fuel rdy w).2.2)
    (w.rx.queue.map (fun m => m.request)) ∧
  ((pollLoopF fuel rdy w).1 = PollRes.ready →
     (pollLoopF fuel rdy w).2.1.finish = true ∧
     (w.finish = false → (pollLoopF fuel rdy w).2.1.rx.queue = []))

/-- bump_rx, bump_finish, bump_failed, bump_handleInner record that
advancing the readiness cursor changes nothing else. -/
theorem bump_rx (w : Worker) : (bump w).rx = w.rx := rfl

/-- bump_finish records that bump preserves the finish flag. -/
theorem bump_finish (w : Worker) : (bump w).finish = w.finish := rfl

/-- bump_failed records that bump preserves the sticky local error. -/
theorem bump_failed (w : Worker) : (bump w).failed = w.failed := rfl

/-- bump_handleInner records that bump preserves the shared cell. -/
theorem bump_handleInner (w : Worker) : (bump w).handleInner = w.handleInner := rfl

/-- runMsg_main proves the MainProp facts for the tail of one iteration,
given them for every smaller run and a readiness trace with no dispatch. -/
theorem runMsg_main (f : Nat) (rdy : Nat → PollReady) (w : Worker) (t0 : List Event)
    (ih : ∀ v, MainProp f rdy v) (hcr : calledReqs t0 = []) :
    (∃ pre, w.rx.queue = pre ++ (runMsg f rdy w t0).2.1.rx.queue ∧
        ∀ m ∈ pre, m.txClosed = false → answered (runMsg f rdy w t0).2.2 m = true) ∧
    List.Sublist (calledReqs (runMsg f rdy w t0).2.2)
      (w.rx.queue.map (fun m => m.request)) ∧
    ((runMsg f rdy w t0).1 = PollRes.ready →
       (runMsg f rdy w t0).2.1.finish = true ∧
       (w.finish = false → (runMsg f rdy w t0).2.1.rx.queue = [])) := by
  obtain ⟨⟨q, c⟩, fin, fl, hi, ri⟩ := w
  rcases msgPhase_inv ⟨⟨q, c⟩, fin, fl, hi, ri⟩ t0 with ⟨hf, hstep⟩ |
      ⟨hf, hc, hall, hstep⟩ | ⟨hf, hc, hall, hstep⟩ |
      ⟨pre, m, rest, e, hf, hfl, hsplit, hpre, hmc, hstep⟩ |
      ⟨pre, m, rest, hf, hfl, hsplit, hpre, hmc, hstep⟩
  all_goals
    first
      | (have hf2 : fin = true := hf; subst hf2)
      | (have hf2 : fin = false := hf; subst hf2)
  · -- already finishing: Ready(None) immediately, nothing consumed
    simp only [runMsg, hstep]
    refine ⟨⟨[], by simp, by simp⟩, by simp [hcr], ?_⟩
    intro _
    simp
  · -- open queue drained of cancelled messages: Pending
    simp only [runMsg, hstep]
    refine ⟨⟨q, by simp, ?_⟩, ?_, ?_⟩
    · intro m hm hmc
      have := hall m hm
      rw [this] at hmc
      cases hmc
    · simp [calledReqs_append, hcr, calledReqs_skips]
    · intro h2
      cases h2
  · -- closed queue drained: Ready, finish set
    simp only [runMsg, hstep]
    refine ⟨⟨q, by simp, ?_⟩, ?_, ?_⟩
    · intro m hm hmc
      have := hall m hm
      rw [this] at hmc
      cases hmc
    · simp [calledReqs_append, hcr, calledReqs_skips]
    · intro _
      simp
  · -- dequeued message answered with the recorded failure, loop continues
    have hq : q = pre ++ m :: rest := hsplit
    subst hq
    simp only [runMsg, hstep]
    obtain ⟨⟨p1, hp1, hans⟩, hsub, hready⟩ :=
      ih ⟨⟨rest, c⟩, false, fl, hi, ri⟩
    have hp1' : rest = p1 ++ (pollLoopF f rdy ⟨⟨rest, c⟩, false, fl, hi, ri⟩).2.1.rx.queue :=
      hp1
    refine ⟨⟨pre ++ m :: p1, ?_, ?_⟩, ?_, ?_⟩
    · conv_lhs => rw [hp1']
      simp
    · intro x hx hxc
      rw [answered_append]
      rcases List.mem_append.mp hx with hx | hx
      · rw [hpre x hx] at hxc
        cases hxc
      · rcases List.mem_cons.mp hx with hx | hx
        · subst hx
          have h3 : answered (t0 ++ List.map (fun y => Event.skipped y.request) pre ++
              [Event.sentErr x.request e]) x = true := by
            simp [answered_append, answered]
          rw [h3]
          simp
        · have h3 : answered (pollLoopF f rdy ⟨⟨rest, c⟩, false, fl, hi, ri⟩).2.2 x =
              true := hans x hx hxc
          rw [h3]
          simp
    · rw [calledReqs_append, calledReqs_append, calledReqs_append, hcr,
        calledReqs_skips]
      have h1 : calledReqs [Event.sentErr m.request e] = [] := by simp [calledReqs]
      rw [h1]
      simp only [List.nil_append, List.append_nil, List.map_append, List.map_cons]
      exact (hsub.trans (List.sublist_cons_self _ _)).trans
        (List.sublist_append_right _ _)
    · intro hr
      have h4 := hready hr
      exact ⟨h4.1, fun _ => h4.2 rfl⟩
  · -- dequeued message dispatched to the service, loop continues
    have hq : q = pre ++ m :: rest := hsplit
    subst hq
    simp only [runMsg, hstep]
    obtain ⟨⟨p1, hp1, hans⟩, hsub, hready⟩ :=
      ih ⟨⟨rest, c⟩, false, fl, hi, ri⟩
    have hp1' : rest = p1 ++ (pollLoopF f rdy ⟨⟨rest, c⟩, false, fl, hi, ri⟩).2.1.rx.queue :=
      hp1
    refine ⟨⟨pre ++ m :: p1, ?_, ?_⟩, ?_, ?_⟩
    · conv_lhs => rw [hp1']
      simp
    · intro x hx hxc
      rw [answered_append]
      rcases List.mem_append.mp hx with hx | hx
      · rw [hpre x hx] at hxc
        cases hxc
      · rcases List.mem_cons.mp hx with hx | hx
        · subst hx
          have h3 : answered (t0 ++ List.map (fun y => Event.skipped y.request) pre ++
              [Event.called x.request, Event.sentOk x.request]) x = true := by
            simp [answered_append, answered]
          rw [h3]
          simp
        · have h3 : answered (pollLoopF f rdy ⟨⟨rest, c⟩, false, fl, hi, ri⟩).2.2 x =
              true := hans x hx hxc
          rw [h3]
          simp
    · rw [calledReqs_append, calledReqs_append, calledReqs_append, hcr,
        calledReqs_skips]
      have h1 : calledReqs [Event.called m.request, Event.sentOk m.request] =
          [m.request] := by simp [calledReqs]
      rw [h1]
      simp only [List.nil_append, List.append_nil, List.map_append, List.map_cons]
      exact (hsub.cons₂ m.request).trans (List.sublist_append_right _ _)
    · intro hr
      have h4 := hready hr
      exact ⟨h4.1, fun _ => h4.2 rfl⟩

/-- pollLoopF_main establishes MainProp for every fuel and worker state. -/
theorem pollLoopF_main (fuel : Nat) (rdy : Nat → PollReady) :
    ∀ w, MainProp fuel rdy w := by
  induction fuel with
  | zero =>
    intro w
    exact ⟨⟨[], by simp [pollLoopF], by simp⟩, by simp [pollLoopF, calledReqs],
      by simp [pollLoopF]⟩
  | succ f ih =>
    intro w
    rcases loopStep_inv rdy w with ⟨hfl, hr, hstep⟩ | ⟨e, hfl, hr, hstep⟩ |
        ⟨hfl, hr, hstep⟩ | ⟨e, hfl, hstep⟩
    · have hpoll : pollLoopF (f + 1) rdy w =
          (PollRes.pending, bump w, [Event.polledReady PollReady.pending]) := by
        simp [pollLoopF, hstep]
      refine ⟨⟨[], ?_, by simp⟩, ?_, ?_⟩
      · rw [hpoll, bump_rx]
        simp
      · rw [hpoll]
        simp [calledReqs]
      · rw [hpoll]
        intro h2
        cases h2
    · have hpoll := pollLoopF_succ_msg f rdy w _ _ hstep
      have hmain := runMsg_main f rdy ((Worker.failedFn (bump w) e).1)
        [Event.polledReady (PollReady.err e)] ih (by simp [calledReqs])
      rw [failedFn_queue, failedFn_finish, bump_rx, bump_finish] at hmain
      unfold MainProp
      rw [hpoll]
      exact hmain
    · have hpoll := pollLoopF_succ_msg f rdy w _ _ hstep
      have hmain := runMsg_main f rdy (bump w)
        [Event.polledReady PollReady.ok] ih (by simp [calledReqs])
      rw [bump_rx, bump_finish] at hmain
      unfold MainProp
      rw [hpoll]
      exact hmain
    · have hpoll := pollLoopF_succ_msg f rdy w _ _ hstep
      have hmain := runMsg_main f rdy w [] ih (by simp [calledReqs])
      unfold MainProp
      rw [hpoll]
      exact hmain

/-- runMsg_handleInner: the message phase and the rest of the loop never
write the shared failure cell once it holds an error. -/
theorem runMsg_handleInner (f : Nat) (rdy : Nat → PollReady) (w : Worker)
    (t0 : List Event)
    (ih : ∀ v e, v.handleInner = some e →
      (pollLoopF f rdy v).2.1.handleInner = some e)
    (e : Nat) (h : w.handleInner = some e) :
    (runMsg f rdy w t0).2.1.handleInner = some e := by
  rcases msgPhase_inv w t0 with ⟨-, hs⟩ | ⟨-, -, -, hs⟩ | ⟨-, -, -, hs⟩ |
      ⟨pre, m, rest, e2, -, -, -, -, -, hs⟩ | ⟨pre, m, rest, -, -, -, -, -, hs⟩ <;>
    simp only [runMsg, hs]
  · exact h
  · exact h
  · exact h
  · exact ih _ e h
  · exact ih _ e h

/-- runMsg_failed: the message phase and the rest of the loop never clear
the worker's sticky local error. -/
theorem runMsg_failed (f : Nat) (rdy : Nat → PollReady) (w : Worker)
    (t0 : List Event)
    (ih : ∀ v e, v.failed = some e → (pollLoopF f rdy v).2.1.failed = some e)
    (e : Nat) (h : w.failed = some e) :
    (runMsg f rdy w t0).2.1.failed = some e := by
  rcases msgPhase_inv w t0 with ⟨-, hs⟩ | ⟨-, -, -, hs⟩ | ⟨-, -, -, hs⟩ |
      ⟨pre, m, rest, e2, -, -, -, -, -, hs⟩ | ⟨pre, m, rest, -, hfl2, -, -, -, hs⟩
  all_goals simp only [runMsg, hs]
  · exact h
  · exact h
  · exact h
  · exact ih _ e h
  · rw [h] at hfl2
    cases hfl2

/-- runMsg_no_called: with a failure recorded, the message phase and the
rest of the loop never dispatch to the service. -/
theorem runMsg_no_called (f : Nat) (rdy : Nat → PollReady) (w : Worker)
    (t0 : List Event)
    (ih : ∀ v e, v.failed = some e → ∀ r, Event.called r ∉ (pollLoopF f rdy v).2.2)
    (e : Nat) (h : w.failed = some e) (h0 : ∀ r, Event.called r ∉ t0) :
    ∀ r, Event.called r ∉ (runMsg f rdy w t0).2.2 := by
  rcases msgPhase_inv w t0 with ⟨-, hs⟩ | ⟨-, -, -, hs⟩ | ⟨-, -, -, hs⟩ |
      ⟨pre, m, rest, e2, -, hfl2, -, -, -, hs⟩ | ⟨pre, m, rest, -, hfl2, -, -, -, hs⟩
  all_goals simp only [runMsg, hs]
  · exact h0
  · intro r hr
    rcases List.mem_append.mp hr with hr | hr
    · exact h0 r hr
    · obtain ⟨x, -, hx⟩ := List.mem_map.mp hr
      cases hx
  · intro r hr
    rcases List.mem_append.mp hr with hr | hr
    · exact h0 r hr
    · obtain ⟨x, -, hx⟩ := List.mem_map.mp hr
      cases hx
  · intro r hr
    have hfl3 : w.failed = some e2 := hfl2
    rcases List.mem_append.mp hr with hr | hr
    · rcases List.mem_append.mp hr with hr | hr
      · rcases List.mem_append.mp hr with hr | hr
        · exact h0 r hr
        · obtain ⟨x, -, hx⟩ := List.mem_map.mp hr
          cases hx
      · simp at hr
    · have hfl4 : ({ w with rx := { w.rx with queue := rest } } : Worker).failed =
          some e2 := hfl3
      exact ih _ e2 hfl4 r hr
  · rw [h] at hfl2
    cases hfl2

/-- pollLoopF_handleInner: a recorded shared failure survives every poll —
the loop never overwrites or clears the shared cell. -/
theorem pollLoopF_handleInner (rdy : Nat → PollReady) (fuel : Nat) :
    ∀ w e, w.handleInner = some e →
      (pollLoopF fuel rdy w).2.1.handleInner = some e := by
  induction fuel with
  | zero =>
    intro w e h
    simpa [pollLoopF] using h
  | succ f ih =>
    intro w e h
    rcases loopStep_inv rdy w with ⟨hfl, hr, hstep⟩ | ⟨e2, hfl, hr, hstep⟩ |
        ⟨hfl, hr, hstep⟩ | ⟨e2, hfl, hstep⟩
    · simp only [pollLoopF, hstep]
      exact h
    · rw [pollLoopF_succ_msg f rdy w _ _ hstep]
      refine runMsg_handleInner f rdy _ _ ih e ?_
      have hb : (bump w).handleInner = some e := h
      simp [Worker.failedFn, hb]
    · rw [pollLoopF_succ_msg f rdy w _ _ hstep]
      exact runMsg_handleInner f rdy _ _ ih e h
    · rw [pollLoopF_succ_msg f rdy w _ _ hstep]
      exact runMsg_handleInner f rdy _ _ ih e h

/-- pollLoopF_failed_sticky: the worker's sticky local error survives every
poll — once set it is never changed. -/
theorem pollLoopF_failed_sticky (rdy : Nat → PollReady) (fuel : Nat) :
    ∀ w e, w.failed = some e → (pollLoopF fuel rdy w).2.1.failed = some e := by
  induction fuel with
  | zero =>
    intro w e h
    simpa [pollLoopF] using h
  | succ f ih =>
    intro w e h
    rcases loopStep_inv rdy w with ⟨hfl, hr, hstep⟩ | ⟨e2, hfl, hr, hstep⟩ |
        ⟨hfl, hr, hstep⟩ | ⟨e2, hfl, hstep⟩
    · rw [hfl] at h
      cases h
    · rw [hfl] at h
      cases h
    · rw [hfl] at h
      cases h
    · rw [pollLoopF_succ_msg f rdy w _ _ hstep]
      exact runMsg_failed f rdy _ _ ih e h

/-- pollLoopF_no_called: with a failure recorded, no later poll ever
dispatches a request to the service. -/
theorem pollLoopF_no_called (rdy : Nat → PollReady) (fuel : Nat) :
    ∀ w e, w.failed = some e → ∀ r, Event.called r ∉ (pollLoopF fuel rdy w).2.2 := by
  induction fuel with
  | zero =>
    intro w e h r
    simp [pollLoopF]
  | succ f ih =>
    intro w e h
    rcases loopStep_inv rdy w with ⟨hfl, hr, hstep⟩ | ⟨e2, hfl, hr, hstep⟩ |
        ⟨hfl, hr, hstep⟩ | ⟨e2, hfl, hstep⟩
    · rw [hfl] at h
      cases h
    · rw [hfl] at h
      cases h
    · rw [hfl] at h
      cases h
    · rw [pollLoopF_succ_msg f rdy w _ _ hstep]
      exact runMsg_no_called f rdy _ _ ih e h (by intro r hr; cases hr)

/-- drainTrace_append distributes the failed-mode answers over queue
concatenation. -/
theorem drainTrace_append (e : Nat) (l1 l2 : List Message) :
    drainTrace e (l1 ++ l2) = drainTrace e l1 ++ drainTrace e l2 := by
  simp [drainTrace]

/-- drainTrace_cancelled: a fully-cancelled queue is answered by skips
alone. -/
theorem drainTrace_cancelled (e : Nat) (l : List Message)
    (h : ∀ m ∈ l, m.txClosed = true) :
    drainTrace e l = l.map (fun m => Event.skipped m.request) := by
  unfold drainTrace
  apply List.map_congr_left
  intro m hm
  rw [h m hm]
  simp

/-- pollLoopF_drain characterises the loop once a failure is recorded: the
readiness check is skipped, every queued message is drained — skipped if
abandoned, otherwise answered with a clone of the recorded error — and the
poll ends Ready exactly when the receiver is closed. -/
theorem pollLoopF_drain (rdy : Nat → PollReady) (fuel : Nat) :
    ∀ w e, w.failed = some e → w.finish = false → w.rx.queue.length < fuel →
      pollLoopF fuel rdy w =
        ((if w.rx.closed then PollRes.ready else PollRes.pending),
         { w with rx := { w.rx with queue := [] }, finish := w.rx.closed },
         drainTrace e w.rx.queue) := by
  induction fuel with
  | zero =>
    intro w e h1 h2 h3
    exact absurd h3 (Nat.not_lt_zero _)
  | succ f ih =>
    intro w e h1 h2 h3
    obtain ⟨⟨q, c⟩, fin, fl, hi, ri⟩ := w
    have hfin : fin = false := h2
    subst hfin
    have hfl : fl = some e := h1
    subst hfl
    have hstep : loopStep rdy ⟨⟨q, c⟩, false, some e, hi, ri⟩ =
        msgPhase ⟨⟨q, c⟩, false, some e, hi, ri⟩ [] := by
      simp [loopStep]
    rw [pollLoopF_succ_msg f rdy _ _ _ hstep]
    rcases msgPhase_inv ⟨⟨q, c⟩, false, some e, hi, ri⟩ [] with ⟨hf, hs⟩ |
        ⟨hf, hc, hall, hs⟩ | ⟨hf, hc, hall, hs⟩ |
        ⟨pre, m, rest, e2, hf, hfl2, hsplit, hpre, hmc, hs⟩ |
        ⟨pre, m, rest, hf, hfl2, hsplit, hpre, hmc, hs⟩
    · simp at hf
    · have hc' : c = false := hc
      subst hc'
      simp only [runMsg, hs]
      rw [drainTrace_cancelled e q hall]
      simp
    · have hc' : c = true := hc
      subst hc'
      simp only [runMsg, hs]
      rw [drainTrace_cancelled e q hall]
      simp
    · have he2 : e2 = e := by
        have h4 : some e = some e2 := hfl2
        exact (Option.some.inj h4).symm
      subst he2
      have hq : q = pre ++ m :: rest := hsplit
      subst hq
      simp only [runMsg, hs]
      have hlen : rest.length < f := by
        have := h3
        simp at this
        omega
      have hrec := ih ⟨⟨rest, c⟩, false, some e2, hi, ri⟩ e2 rfl rfl hlen
      rw [hrec]
      rw [drainTrace_append, drainTrace_cancelled e2 pre hpre]
      simp [drainTrace, hmc]
    · have h4 : some e = none := hfl2
      cases h4

/-- bp_skips_nil: a trace of skip events alone satisfies the backpressure
discipline. -/
theorem bp_skips_nil (l : List Message) (st : Option PollReady) :
    backpressureOk st (l.map (fun m => Event.skipped m.request)) = true := by
  have h := bp_skips l st []
  simpa using h

/-- pollLoopF_bp: every trace of the loop satisfies the backpressure
discipline — a dispatch happens only straight after a readiness poll that
reported ready — provided the shared cell mirrors the local sticky error,
which holds in every reachable worker state. -/
theorem pollLoopF_bp (rdy : Nat → PollReady) (fuel : Nat) :
    ∀ w st, w.handleInner = w.failed →
      backpressureOk st (pollLoopF fuel rdy w).2.2 = true := by
  induction fuel with
  | zero =>
    intro w st h
    simp [pollLoopF, backpressureOk]
  | succ f ih =>
    intro w st h
    obtain ⟨⟨q, c⟩, fin, fl, hi, ri⟩ := w
    have hh : hi = fl := h
    subst hh
    rcases loopStep_inv rdy ⟨⟨q, c⟩, fin, hi, hi, ri⟩ with ⟨hfl, hr, hstep⟩ |
        ⟨e, hfl, hr, hstep⟩ | ⟨hfl, hr, hstep⟩ | ⟨e, hfl, hstep⟩
    · simp only [pollLoopF, hstep]
      simp [backpressureOk]
    · have hfl' : hi = none := hfl
      subst hfl'
      rw [pollLoopF_succ_msg f rdy _ _ _ hstep]
      have hw' : (Worker.failedFn (bump ⟨⟨q, c⟩, fin, none, none, ri⟩) e).1 =
          ⟨⟨q, true⟩, fin, some e, some e, ri + 1⟩ := rfl
      rw [hw']
      rcases msgPhase_inv ⟨⟨q, true⟩, fin, some e, some e, ri + 1⟩
          [Event.polledReady (PollReady.err e)] with ⟨hf, hs⟩ |
          ⟨hf, hc, hall, hs⟩ | ⟨hf, hc, hall, hs⟩ |
          ⟨pre, m, rest, e2, hf, hfl2, hsplit, hpre, hmc, hs⟩ |
          ⟨pre, m, rest, hf, hfl2, hsplit, hpre, hmc, hs⟩
      · simp [runMsg, hs, backpressureOk]
      · simp at hc
      · simp only [runMsg, hs]
        simp [backpressureOk, bp_skips_nil]
      · have he2 : e2 = e := by
          have h4 : (some e : Option Nat) = some e2 := hfl2
          exact (Option.some.inj h4).symm
        subst he2
        simp only [runMsg, hs]
        have hrec := fun st2 => ih ⟨⟨rest, true⟩, fin, some e2, some e2, ri + 1⟩ st2 rfl
        simp [backpressureOk, bp_skips, List.append_assoc, hrec]
      · have h4 : (some e : Option Nat) = none := hfl2
        cases h4
    · have hfl' : hi = none := hfl
      subst hfl'
      rw [pollLoopF_succ_msg f rdy _ _ _ hstep]
      have hw' : bump ⟨⟨q, c⟩, fin, none, none, ri⟩ =
          ⟨⟨q, c⟩, fin, none, none, ri + 1⟩ := rfl
      rw [hw']
      rcases msgPhase_inv ⟨⟨q, c⟩, fin, none, none, ri + 1⟩
          [Event.polledReady PollReady.ok] with ⟨hf, hs⟩ |
          ⟨hf, hc, hall, hs⟩ | ⟨hf, hc, hall, hs⟩ |
          ⟨pre, m, rest, e2, hf, hfl2, hsplit, hpre, hmc, hs⟩ |
          ⟨pre, m, rest, hf, hfl2, hsplit, hpre, hmc, hs⟩
      · simp [runMsg, hs, backpressureOk]
      · simp only [runMsg, hs]
        simp [backpressureOk, bp_skips_nil]
      · simp only [runMsg, hs]
        simp [backpressureOk, bp_skips_nil]
      · have h4 : (none : Option Nat) = some e2 := hfl2
        cases h4
      · simp only [runMsg, hs]
        have hrec := fun st2 => ih ⟨⟨rest, c⟩, fin, none, none, ri + 1⟩ st2 rfl
        simp [backpressureOk, bp_skips, List.append_assoc, hrec]
    · have hfl' : hi = some e := hfl
      subst hfl'
      rw [pollLoopF_succ_msg f rdy _ _ _ hstep]
      rcases msgPhase_inv ⟨⟨q, c⟩, fin, some e, some e, ri⟩ [] with ⟨hf, hs⟩ |
          ⟨hf, hc, hall, hs⟩ | ⟨hf, hc, hall, hs⟩ |
          ⟨pre, m, rest, e2, hf, hfl2, hsplit, hpre, hmc, hs⟩ |
          ⟨pre, m, rest, hf, hfl2, hsplit, hpre, hmc, hs⟩
      · simp [runMsg, hs, backpressureOk]
      · simp only [runMsg, hs]
        simp [backpressureOk, bp_skips_nil]
      · simp only [runMsg, hs]
        simp [backpressureOk, bp_skips_nil]
      · have he2 : e2 = e := by
          have h4 : (some e : Option Nat) = some e2 := hfl2
          exact (Option.some.inj h4).symm
        subst he2
        simp only [runMsg, hs]
        have hrec := fun st2 => ih ⟨⟨rest, c⟩, fin, some e2, some e2, ri⟩ st2 rfl
        simp [backpressureOk, bp_skips, List.append_assoc, hrec]
      · have h4 : (some e : Option Nat) = none := hfl2
        cases h4

/-- findMsg_split computes a scan over an explicitly split queue: a
cancelled prefix, then the first wanted message. -/
theorem findMsg_split (c : Bool) (pre rest : List Message) (m : Message)
    (hpre : ∀ x ∈ pre, x.txClosed = true) (hm : m.txClosed = false) :
    findMsg c (pre ++ m :: rest) =
      (some (some m), rest, pre.map (fun x => Event.skipped x.request)) := by
  induction pre with
  | nil => simp [findMsg, hm]
  | cons a l ih =>
    have ha : a.txClosed = true := hpre a (by simp)
    have ih2 := ih (fun x hx => hpre x (by simp [hx]))
    simp [findMsg, ha, ih2]

/-- Claim C1: once an error is recorded in the shared cell, a second call of the
worker's failure-recording operation is a no-op leaving the shared cell and
the local sticky error unchanged, and failure_reason keeps returning the
first error across every later poll of the worker. -/
theorem claim1_sticky_once_failure (w : Worker) (e1 e2 : Nat)
    (rdy : Nat → PollReady) (fuel : Nat) (h : w.handleInner = none) :
    ((w.failedFn e1).1.handleInner = some e1) ∧
    ((w.failedFn e1).1.failed = some e1) ∧
    ((w.failedFn e1).1).failedFn e2 = ((w.failedFn e1).1, [FailAction.checkAbort]) ∧
    getErrorOnClosed ((w.failedFn e1).1).handleInner = BoxErr.svc e1 ∧
    (pollLoopF fuel rdy (w.failedFn e1).1).2.1.handleInner = some e1 := by
  have h1 : (w.failedFn e1).1.handleInner = some e1 := by
    simp [Worker.failedFn, h]
  have h2 : (w.failedFn e1).1.failed = some e1 := by
    simp [Worker.failedFn, h]
  refine ⟨h1, h2, ?_, ?_, ?_⟩
  · have hv : ((w.failedFn e1).1).handleInner = some e1 := h1
    rw [Worker.failedFn, hv]
    simp
  · rw [h1]
    rfl
  · exact pollLoopF_handleInner rdy fuel _ e1 h1

/-- claim1_witness instantiates C1 on a fresh worker with errors 3 then 4. -/
theorem claim1_witness :
    (newWorker [] false).handleInner = none ∧
    ((((newWorker [] false).failedFn 3).1.handleInner = some 3) ∧
     (((newWorker [] false).failedFn 3).1.failed = some 3) ∧
     ((((newWorker [] false).failedFn 3).1).failedFn 4 =
       (((newWorker [] false).failedFn 3).1, [FailAction.checkAbort])) ∧
     getErrorOnClosed (((newWorker [] false).failedFn 3).1).handleInner =
       BoxErr.svc 3 ∧
     (pollLoopF 5 alwaysOk ((newWorker [] false).failedFn 3).1).2.1.handleInner =
       some 3) :=
  ⟨rfl, claim1_sticky_once_failure (newWorker [] false) 3 4 alwaysOk 5 rfl⟩

/-- claim2_counterexample: a message accepted onto the queue whose reply
destination was abandoned is dropped at dequeue — the worker completes
without dispatching it and without sending it a failure, so the claim as
stated (dispatch or failure, never neither) fails for abandoned messages. -/
theorem claim2_counterexample :
    (Worker.poll alwaysOk (newWorker [Message.mk 5 true] true)).1 = PollRes.ready ∧
    (Worker.poll alwaysOk (newWorker [Message.mk 5 true] true)).2.1.rx.queue = [] ∧
    answered (Worker.poll alwaysOk (newWorker [Message.mk 5 true] true)).2.2
      (Message.mk 5 true) = false := by
  decide

/-- C2 (amended): every Message accepted onto the queue is either still
queued after a poll, or accounted for by the trace — dispatched or answered
with a failure when its reply destination was still wanted; a completed
poll leaves nothing queued; the failure transition closes the queue so
later sends fail; and with a failure recorded a poll answers the whole
queue with the recorded failure (abandoned messages skipped). -/
theorem claim2_no_loss_amended (rdy : Nat → PollReady) (w : Worker) :
    (∃ pre, w.rx.queue = pre ++ (Worker.poll rdy w).2.1.rx.queue ∧
        ∀ m ∈ pre, m.txClosed = false → answered (Worker.poll rdy w).2.2 m = true) ∧
    ((Worker.poll rdy w).1 = PollRes.ready → w.finish = false →
        (Worker.poll rdy w).2.1.rx.queue = []) ∧
    (∀ e, w.handleInner = none → ((w.failedFn e).1).rx.closed = true) ∧
    (∀ e, w.failed = some e → w.finish = false →
        (Worker.poll rdy w).2.2 = drainTrace e w.rx.queue) := by
  by_cases hf : w.finish = true
  · have hpoll : Worker.poll rdy w = (PollRes.ready, w, []) := by
      simp [Worker.poll, hf]
    refine ⟨⟨[], by rw [hpoll]; simp, by simp⟩, ?_, ?_, ?_⟩
    · intro _ h2
      rw [hf] at h2
      cases h2
    · intro e h
      simp [Worker.failedFn, h]
    · intro e _ h2
      rw [hf] at h2
      cases h2
  · have hf' : w.finish = false := by simpa using hf
    have hpoll : Worker.poll rdy w = pollLoopF (w.rx.queue.length + 1) rdy w := by
      simp [Worker.poll, hf']
    obtain ⟨⟨pre, hp, ha⟩, hsub, hready⟩ :=
      pollLoopF_main (w.rx.queue.length + 1) rdy w
    refine ⟨⟨pre, by rw [hpoll]; exact hp, by rw [hpoll]; exact ha⟩, ?_, ?_, ?_⟩
    · intro hr _
      rw [hpoll] at hr ⊢
      exact (hready hr).2 hf'
    · intro e h
      simp [Worker.failedFn, h]
    · intro e he _
      rw [hpoll, pollLoopF_drain rdy _ w e he hf' (Nat.lt_succ_self _)]

/-- claim2_witness instantiates the amended C2 on an empty closed queue. -/
theorem claim2_witness :
    (Worker.poll alwaysOk (newWorker [] true)).2.1.rx.queue = [] :=
  (claim2_no_loss_amended alwaysOk (newWorker [] true)).2.1 (by decide) rfl

/-- Claim C3: failure_reason returns the recorded service failure when the shared
cell holds one and the generic closed error otherwise; it is a total
function on the cell's contents, so it always returns an error value. -/
theorem claim3_failure_reason (inner : Option Nat) :
    (∀ e, inner = some e → getErrorOnClosed inner = BoxErr.svc e) ∧
    (inner = none → getErrorOnClosed inner = BoxErr.closed) := by
  constructor
  · intro e h
    rw [h]
    rfl
  · intro h
    rw [h]
    rfl

/-- claim3_witness instantiates C3 on both shapes of the shared cell. -/
theorem claim3_witness :
    getErrorOnClosed (some 7) = BoxErr.svc 7 ∧
    getErrorOnClosed none = BoxErr.closed :=
  ⟨(claim3_failure_reason (some 7)).1 7 rfl, (claim3_failure_reason none).2 rfl⟩

/-- Claim C4: the failure transition performs exactly, and in this order: the
check-and-set under the lock (aborting if an error is recorded), recording
the error in the shared cell, closing the receive side, and retaining the
same error locally. -/
theorem claim4_failure_transition_order (w : Worker) (e : Nat) :
    (w.handleInner = none →
      w.failedFn e =
        ({ w with
            handleInner := some e,
            rx := { w.rx with closed := true },
            failed := some e },
         [FailAction.setShared e, FailAction.closeRx, FailAction.setLocal e])) ∧
    (∀ e0, w.handleInner = some e0 → w.failedFn e = (w, [FailAction.checkAbort])) := by
  constructor
  · intro h
    simp [Worker.failedFn, h]
  · intro e0 h
    simp [Worker.failedFn, h]

/-- claim4_witness instantiates C4: a fresh worker takes the three
recording steps in order, and a second failure aborts at the check. -/
theorem claim4_witness :
    (newWorker [] false).failedFn 3 =
      ({ newWorker [] false with
          handleInner := some 3,
          rx := { (newWorker [] false).rx with closed := true },
          failed := some 3 },
       [FailAction.setShared 3, FailAction.closeRx, FailAction.setLocal 3]) ∧
    (((newWorker [] false).failedFn 3).1).failedFn 4 =
      (((newWorker [] false).failedFn 3).1, [FailAction.checkAbort]) :=
  ⟨(claim4_failure_transition_order (newWorker [] false) 3).1 rfl,
   (claim4_failure_transition_order ((newWorker [] false).failedFn 3).1 4).2 3
     (by decide)⟩

/-- Claim C5: along every poll trace, a dispatch happens only when the most
recent readiness poll reported ready with no dispatch in between, so the
service is never called while last reported not-ready and readiness is
re-polled before every dispatch, never cached. The hypothesis — the shared
cell mirrors the local sticky error — holds in every reachable state. -/
theorem claim5_backpressure (rdy : Nat → PollReady) (w : Worker)
    (st : Option PollReady) (h : w.handleInner = w.failed) :
    backpressureOk st (Worker.poll rdy w).2.2 = true := by
  by_cases hf : w.finish = true
  · simp [Worker.poll, hf, backpressureOk]
  · have hf' : w.finish = false := by simpa using hf
    have hpoll : Worker.poll rdy w = pollLoopF (w.rx.queue.length + 1) rdy w := by
      simp [Worker.poll, hf']
    rw [hpoll]
    exact pollLoopF_bp rdy _ w st h

/-- claim5_witness instantiates C5 on a fresh one-message queue. -/
theorem claim5_witness :
    (newWorker [Message.mk 1 false] true).handleInner =
      (newWorker [Message.mk 1 false] true).failed ∧
    backpressureOk none
      (Worker.poll alwaysOk (newWorker [Message.mk 1 false] true)).2.2 = true :=
  ⟨rfl, claim5_backpressure alwaysOk (newWorker [Message.mk 1 false] true) none rfl⟩

/-- Claim C6: once a failure is recorded, a poll never polls readiness again and
drains the queue, skipping abandoned messages and answering every other
message with a clone of the recorded failure, never calling the service. -/
theorem claim6_failed_drain (rdy : Nat → PollReady) (w : Worker) (e : Nat)
    (h1 : w.failed = some e) (h2 : w.finish = false) :
    Worker.poll rdy w =
      ((if w.rx.closed then PollRes.ready else PollRes.pending),
       { w with rx := { w.rx with queue := [] }, finish := w.rx.closed },
       drainTrace e w.rx.queue) ∧
    (∀ r, Event.polledReady r ∉ drainTrace e w.rx.queue) ∧
    (∀ q, Event.called q ∉ drainTrace e w.rx.queue) := by
  refine ⟨?_, ?_, ?_⟩
  · have hpoll : Worker.poll rdy w = pollLoopF (w.rx.queue.length + 1) rdy w := by
      simp [Worker.poll, h2]
    rw [hpoll]
    exact pollLoopF_drain rdy _ w e h1 h2 (Nat.lt_succ_self _)
  · intro r hr
    unfold drainTrace at hr
    obtain ⟨m, -, hm⟩ := List.mem_map.mp hr
    by_cases hc : m.txClosed <;> simp [hc] at hm
  · intro q2 hq
    unfold drainTrace at hq
    obtain ⟨m, -, hm⟩ := List.mem_map.mp hq
    by_cases hc : m.txClosed <;> simp [hc] at hm

/-- claim6_witness instantiates C6 just after a real failure transition:
the queued message is answered with the recorded error and the poll ends
Ready. -/
theorem claim6_witness :
    (Worker.poll alwaysOk ((newWorker [Message.mk 2 false] false).failedFn 7).1).2.2 =
      [Event.sentErr 2 7] ∧
    (Worker.poll alwaysOk ((newWorker [Message.mk 2 false] false).failedFn 7).1).1 =
      PollRes.ready := by
  have h := (claim6_failed_drain alwaysOk
    ((newWorker [Message.mk 2 false] false).failedFn 7).1 7 (by decide) (by decide)).1
  refine ⟨?_, ?_⟩ <;> rw [h] <;> rfl

/-- Claim C7: a Message whose reply destination was abandoned before dequeue is
skipped at dequeue time: the dequeue operation drops the whole abandoned
prefix, emits only skip events for it (no dispatch, no reply), and returns
the first still-wanted message with the remainder intact. -/
theorem claim7_no_wasted_calls (w : Worker) (pre rest : List Message) (m : Message)
    (h0 : w.finish = false) (hq : w.rx.queue = pre ++ m :: rest)
    (hpre : ∀ x ∈ pre, x.txClosed = true) (hm : m.txClosed = false) :
    w.pollNextMsg =
      (some (some m), { w with rx := { w.rx with queue := rest } },
       pre.map (fun x => Event.skipped x.request)) := by
  simp only [Worker.pollNextMsg, h0, Bool.false_eq_true, if_false, hq,
    findMsg_split w.rx.closed pre rest m hpre hm]

/-- claim7_witness instantiates C7: an abandoned message ahead of a wanted
one is skipped without reaching the service. -/
theorem claim7_witness :
    (newWorker [Message.mk 9 true, Message.mk 4 false] false).pollNextMsg =
      (some (some (Message.mk 4 false)), newWorker [] false, [Event.skipped 9]) := by
  have h := claim7_no_wasted_calls
    (newWorker [Message.mk 9 true, Message.mk 4 false] false)
    [Message.mk 9 true] [] (Message.mk 4 false) rfl rfl (by decide) rfl
  rw [h]
  rfl

/-- Claim C8: dispatched requests form a sublist of the queued requests in queue
order — dispatch is strict FIFO, never reordered or duplicated, and each
loop iteration initiates at most one call. -/
theorem claim8_fifo (rdy : Nat → PollReady) (w : Worker) :
    List.Sublist (calledReqs (Worker.poll rdy w).2.2)
      (w.rx.queue.map (fun m => m.request)) := by
  by_cases hf : w.finish = true
  · simp [Worker.poll, hf, calledReqs]
  · have hf' : w.finish = false := by simpa using hf
    have h := (pollLoopF_main (w.rx.queue.length + 1) rdy w).2.1
    have hpoll : Worker.poll rdy w = pollLoopF (w.rx.queue.length + 1) rdy w := by
      simp [Worker.poll, hf']
    rw [hpoll]
    exact h

/-- Claim C9: a poll of a finished worker returns Ready immediately with no
events and an unchanged state, and any poll returning Ready leaves the
worker with its terminal flag set. -/
theorem claim9_finished_terminal (rdy : Nat → PollReady) (w : Worker) :
    (w.finish = true → Worker.poll rdy w = (PollRes.ready, w, [])) ∧
    ((Worker.poll rdy w).1 = PollRes.ready →
      (Worker.poll rdy w).2.1.finish = true) := by
  constructor
  · intro h
    simp [Worker.poll, h]
  · intro h
    by_cases hf : w.finish = true
    · simp [Worker.poll, hf]
    · have hf' : w.finish = false := by simpa using hf
      have hm := (pollLoopF_main (w.rx.queue.length + 1) rdy w).2.2
      have hpoll : Worker.poll rdy w = pollLoopF (w.rx.queue.length + 1) rdy w := by
        simp [Worker.poll, hf']
      rw [hpoll] at h ⊢
      exact (hm h).1

/-- claim9_witness instantiates C9 on a finished worker. -/
theorem claim9_witness :
    Worker.poll alwaysOk ⟨⟨[], false⟩, true, none, none, 0⟩ =
      (PollRes.ready, ⟨⟨[], false⟩, true, none, none, 0⟩, []) :=
  (claim9_finished_terminal alwaysOk ⟨⟨[], false⟩, true, none, none, 0⟩).1 rfl

/-- Claim C10: with no recorded failure the shared cell is empty, so
failure_reason returns the generic closed error both for a live worker that
never failed and for one that terminated cleanly — the interface cannot
distinguish the two and never reports the absence of an error. -/
theorem claim10_closed_default (q : List Message) (c : Bool) :
    getErrorOnClosed (newWorker q c).handleInner = BoxErr.closed ∧
    (Worker.poll alwaysOk (newWorker [] true)).2.1.finish = true ∧
    getErrorOnClosed (Worker.poll alwaysOk (newWorker [] true)).2.1.handleInner =
      BoxErr.closed := by
  refine ⟨rfl, by decide, by decide⟩

end TowerBuffer
